import Mathlib

/-!
Verification development for the PvPoke ranking engine
(`src/cli/lib/RankerNode.js` and `src/cli/lib/RankerOverallNode.js`).

The battle orchestration layer (`RankerNode.rank`) works on exact numbers:
final health values from the simulator are modelled as rationals, ratings as
integers (the code floors them).  The iterative weight solver and the
finalization/aggregation layers use `Math.pow`/`Math.sqrt` with fractional
exponents, so they are modelled over the reals with `Real.rpow`.
The turn-by-turn combat resolver is a black box per the repository docs; it is
modelled as an arbitrary deterministic function from the two configured
contestants to final health and remaining shield values.
-/

/-- A configured contestant, as far as the orchestration layer reads it:
its identity (`speciesId`) and its maximum HP (`pokemon.stats.hp`). -/
structure Contestant where
  speciesId : String
  maxHp : ℚ
deriving DecidableEq, Repr

/-- A ranking scenario (`scenario` objects of `rankingScenarios`): a slug and
the two sides' starting shield counts and energy-turn values. -/
structure Scenario where
  slug : String
  shields : ℤ × ℤ
  energy : ℤ × ℤ
deriving DecidableEq, Repr

/-- What the black-box simulator returns for one encounter, as read by
`RankerNode.rank` lines 393-417: the two final HP values (`pokemon.hp`,
`opponent.hp`) and the two remaining shield counts (`pokemon.shields`,
`opponent.shields`). -/
structure SimOutput where
  hpA : ℚ
  hpB : ℚ
  shieldsA : ℤ
  shieldsB : ℤ
deriving DecidableEq, Repr

/-- One pairing result (`rankObj.matchList` entry), RankerNode.js lines 419-427
(move usage is omitted: no claim reads it). -/
structure MatchResult where
  opponent : String
  rating : ℤ
  opRating : ℤ
  adjRating : ℤ
  adjOpRating : ℤ
deriving DecidableEq, Repr

/-- Default values used to totalize JS array indexing. -/
def dC : Contestant := ⟨"", 1⟩

def dM : MatchResult := ⟨"", 0, 0, 0, 0⟩

/-- The win multipliers of RankerNode.js lines 402-409:
`winMultiplier = rating > opRating ? 1 : 0`, `opWinMultiplier` the opposite,
then both forced to 0 when `rating === 500`. -/
def winMults (rating opRating : ℤ) : ℤ × ℤ :=
  let w : ℤ := if rating > opRating then 1 else 0
  let ow : ℤ := if rating > opRating then 0 else 1
  if rating = 500 then (0, 0) else (w, ow)

/-- The rating computation of RankerNode.js lines 393-417 for one simulated
pairing: health/damage fractions, floored raw ratings, win multipliers and
shield-adjusted ratings. -/
def computeMatch (pokemon opponent : Contestant) (scen : Scenario)
    (out : SimOutput) : MatchResult :=
  let healthRating : ℚ := out.hpA / pokemon.maxHp
  let damageRating : ℚ := (opponent.maxHp - out.hpB) / opponent.maxHp
  let opHealthRating : ℚ := out.hpB / opponent.maxHp
  let opDamageRating : ℚ := (pokemon.maxHp - out.hpA) / pokemon.maxHp
  let rating : ℤ := ⌊(healthRating + damageRating) * 500⌋
  let opRating : ℤ := ⌊(opHealthRating + opDamageRating) * 500⌋
  let wm := winMults rating opRating
  { opponent := opponent.speciesId
    rating := rating
    opRating := opRating
    adjRating := rating + 100 * (scen.shields.2 - out.shieldsB) * wm.1 +
      100 * out.shieldsA * wm.1
    adjOpRating := opRating + 100 * (scen.shields.1 - out.shieldsA) * wm.2 +
      100 * out.shieldsB * wm.2 }

/-- The reused symmetric result of RankerNode.js lines 356-364: the previously
computed pairing with the two sides' ratings swapped. -/
def mirrorMatch (opponent : Contestant) (m : MatchResult) : MatchResult :=
  { opponent := opponent.speciesId
    rating := m.opRating
    opRating := m.rating
    adjRating := m.adjOpRating
    adjOpRating := m.adjRating }

/-- One per-scenario ranking record while `rank` runs: identity, the
pre-solver average, the `scores` list and the pairing results. -/
structure RankObj where
  speciesId : String
  rating : ℤ
  scores : List ℤ
  matchList : List MatchResult
deriving DecidableEq, Repr

def dR : RankObj := ⟨"", 0, [], []⟩

/-- The inner target loop of `RankerNode.rank` (lines 346-432), processing the
first `m` targets for candidate index `i`.  Returns the pairing results in
order, the running `avg` sum (mirror matches skipped), and the number of
simulator invocations (`totalBattles` increments). -/
def rankRowAux (pl tg : List Contestant) (scen : Scenario)
    (sim : Contestant → Contestant → SimOutput) (prev : List RankObj)
    (i : ℕ) (p : Contestant) : ℕ → List MatchResult × ℤ × ℕ
  | 0 => ([], 0, 0)
  | m + 1 =>
    let r := rankRowAux pl tg scen sim prev i p m
    let o := tg.getD m dC
    let isMirror := o.speciesId = p.speciesId
    if m < prev.length ∧ pl.length = tg.length ∧
        scen.shields.1 = scen.shields.2 ∧ scen.energy.1 = scen.energy.2 ∧
        i < ((prev.getD m dR).matchList).length then
      let old := ((prev.getD m dR).matchList).getD i dM
      (r.1 ++ [mirrorMatch o old],
        r.2.1 + (if isMirror then 0 else old.adjOpRating), r.2.2)
    else
      let mr := computeMatch p o scen (sim p o)
      (r.1 ++ [mr], r.2.1 + (if isMirror then 0 else mr.adjRating), r.2.2 + 1)

/-- One candidate's full row (`rankObj`) in `RankerNode.rank`, including the
pre-solver average `Math.floor(avg / (nonMirrorCount || 1))` of lines 434-439. -/
def rankRow (pl tg : List Contestant) (scen : Scenario)
    (sim : Contestant → Contestant → SimOutput) (prev : List RankObj)
    (i : ℕ) (p : Contestant) : RankObj × ℕ :=
  let r := rankRowAux pl tg scen sim prev i p tg.length
  let nonMirrorCount : ℤ := (tg.length : ℤ) - 1
  let avg : ℤ :=
    ⌊(r.2.1 : ℚ) / (if nonMirrorCount = 0 then 1 else (nonMirrorCount : ℚ))⌋
  ({ speciesId := p.speciesId, rating := avg, scores := [avg],
     matchList := r.1 }, r.2.2)

/-- The outer candidate loop of `RankerNode.rank` (lines 325-445), processing
the first `k` candidates.  Returns the rankings built so far and the total
number of simulator invocations. -/
def rankAux (pl tg : List Contestant) (scen : Scenario)
    (sim : Contestant → Contestant → SimOutput) : ℕ → List RankObj × ℕ
  | 0 => ([], 0)
  | k + 1 =>
    let r := rankAux pl tg scen sim k
    let row := rankRow pl tg scen sim r.1 k (pl.getD k dC)
    (r.1 ++ [row.1], r.2 + row.2)

/-- The battle-orchestration phase of `RankerNode.rank`: one row per candidate,
with symmetric-result reuse, plus the simulator invocation count. -/
def rank (pl tg : List Contestant) (scen : Scenario)
    (sim : Contestant → Contestant → SimOutput) : List RankObj × ℕ :=
  rankAux pl tg scen sim pl.length

/-!  Eligibility filters (`RankerNode.checkFilters`, lines 207-286). -/

/-- A contestant as read by `checkFilters`: identity, the two elemental types,
dex number, tags and known moves. -/
structure FPokemon where
  speciesId : String
  types : List String
  dex : ℤ
  tags : List String
  moves : List String
deriving DecidableEq, Repr

/-- The five filter kinds of `checkFilters`' switch statement.  For `fdex` the
code reads `values[0]` and `values[1]` as an inclusive range. -/
inductive FilterKind where
  | ftype (values : List String)
  | fdex (values : List ℤ)
  | ftag (values : List String)
  | fid (values : List String) (includeShadows : Bool)
  | fmove (values : List String)
deriving DecidableEq, Repr

/-- An include/exclude rule: a kind plus an optional league scope
(`filter.leagues`). -/
structure CupFilter where
  kind : FilterKind
  leagues : Option (List ℤ)
deriving DecidableEq, Repr

/-- `filter.leagues && !filter.leagues.includes(cp)` makes the rule
inapplicable; this is the complement. -/
def filterApplies (f : CupFilter) (cp : ℤ) : Bool :=
  match f.leagues with
  | none => true
  | some ls => ls.contains cp

/-- `testId.replace('_shadow', '').replace('_xs', '')` (the JS `replace`
rewrites the first occurrence; species ids contain these suffixes at most
once, so rewriting every occurrence agrees). -/
def stripShadow (s : String) : String :=
  (s.replace ("_shadow") ("")).replace ("_xs") ("")

/-- Whether one filter kind matches a contestant (the match tests inside the
switch of lines 226-273). -/
def matchKind (p : FPokemon) (isInclude : Bool) : FilterKind → Bool
  | .ftype vs => vs.contains (p.types.getD 0 ("")) || vs.contains (p.types.getD 1 (""))
  | .fdex vs => decide (vs.getD 0 0 ≤ p.dex ∧ p.dex ≤ vs.getD 1 0)
  | .ftag vs => vs.any (fun t => p.tags.contains t)
  | .fid vs sh =>
    let testId := if !isInclude || sh then stripShadow p.speciesId else p.speciesId
    vs.contains testId || vs.contains p.speciesId
  | .fmove vs => vs.any (fun m => p.moves.contains m)

/-- The mutable state of one filter-list pass: `filtersMatched`,
`requiredFilters` and the `includeIdFilter` flag. -/
structure FilterAcc where
  filtersMatched : ℤ
  requiredFilters : ℤ
  includeIdFilter : Bool
deriving DecidableEq, Repr

/-- One iteration of the `for (const filter of filters)` loop.  `total` is
`filters.length` (used by the `id` case both for the `requiredFilters--`
special case and for `filtersMatched += filters.length`). -/
def filterStep (p : FPokemon) (cp : ℤ) (isInclude : Bool) (total : ℕ)
    (acc : FilterAcc) (f : CupFilter) : FilterAcc :=
  if ¬ filterApplies f cp then
    { acc with requiredFilters := acc.requiredFilters - 1 }
  else
    match f.kind with
    | .fid vs sh =>
      let acc1 := if isInclude ∧ 1 < total then
          { acc with requiredFilters := acc.requiredFilters - 1 }
        else acc
      if matchKind p isInclude (.fid vs sh) then
        { acc1 with filtersMatched := acc1.filtersMatched + total,
                    includeIdFilter := acc1.includeIdFilter || isInclude }
      else acc1
    | k =>
      if matchKind p isInclude k then
        { acc with filtersMatched := acc.filtersMatched + 1 }
      else acc

/-- One full pass over a filter list, starting from `filtersMatched = 0` and
`requiredFilters = filters.length`. -/
def runFilterList (p : FPokemon) (cp : ℤ) (isInclude : Bool)
    (filters : List CupFilter) : FilterAcc :=
  filters.foldl (filterStep p cp isInclude filters.length)
    ⟨0, (filters.length : ℤ), false⟩

/-- `RankerNode.checkFilters`: the include pass sets `allowed` when
`filtersMatched >= requiredFilters`; the exclude pass clears it when any
exclude rule matched and no include `id` rule fired. -/
def checkFilters (p : FPokemon) (includeList excludeList : List CupFilter)
    (cp : ℤ) : Bool :=
  let incAcc := runFilterList p cp true includeList
  let allowed := decide (incAcc.requiredFilters ≤ incAcc.filtersMatched)
  let excAcc := runFilterList p cp false excludeList
  if 0 < excAcc.filtersMatched ∧ incAcc.includeIdFilter = false then false
  else allowed

/-!  The Iterative Weight Solver (`RankerNode.weightMatchups`, lines 491-565),
modelled over the reals: `Math.pow` with exponents 0.5, 1.65 and fractional
curve exponents is `Real.rpow`. -/

/-- A target/candidate as read by `weightMatchups`: identity and the optional
`weightModifier` (`undefined` when never set). -/
structure WContestant where
  speciesId : String
  weightModifier : Option ℝ

/-- A pairing record as read and written by the solver: the current adjusted
ratings and the per-pairing `score`/`opScore` set each pass. -/
structure WMatch where
  adjRating : ℝ
  adjOpRating : ℝ
  score : ℝ
  opScore : ℝ

/-- A ranking record as read by the solver: identity, the growing `scores`
list and the pairing records. -/
structure WRank where
  speciesId : String
  scores : List ℝ
  matchList : List WMatch

def dWC : WContestant := ⟨"", none⟩

def dWM : WMatch := ⟨0, 0, 0, 0⟩

def dWR : WRank := ⟨"", [], []⟩

/-- `Math.max(...)` over a nonempty list (the empty case never occurs in the
code: `bestScore` is taken over the rankings being processed). -/
noncomputable def listMaxJS : List ℝ → ℝ
  | [] => 0
  | a :: as => as.foldl max a

/-- Soft cap for wins over 700: `700 + Math.pow(adjRating - 700, 0.5)`
(lines 531-533). -/
noncomputable def softCap (r : ℝ) : ℝ :=
  if r > 700 then 700 + (r - 700) ^ ((0.5 : ℝ)) else r

/-- Harsh curve for losses under 300:
`Math.pow(300, (300 + adjRating) / 600)` (lines 536-542). -/
noncomputable def harshCurve (r : ℝ) : ℝ :=
  if r < 300 then (300 : ℝ) ^ ((300 + r) / 600) else r

/-- The body of the innermost loop of `weightMatchups` (lines 505-559) for one
pairing `j` of candidate `i` in pass `n`: returns the updated pairing record,
the contribution added to `score`, and the contribution added to `weights`. -/
noncomputable def passPairing (plLen tgLen : ℕ) (tg : List WContestant)
    (rankings : List WRank) (slug cupName : String) (cp : ℕ) (n : ℕ)
    (bestScore : ℝ) (iSpecies : String) (j : ℕ) (m : WMatch) :
    WMatch × ℝ × ℝ :=
  let rankCutoffIncrease : ℝ := 0.06
  let rankWeightExponent : ℝ := 1.65
  let target := tg.getD j dWC
  let targetScore := (rankings.getD j dWR).scores.getD n 0
  let w1 : ℝ :=
    if plLen = tgLen then
      (max (targetScore / bestScore - (0.1 + rankCutoffIncrease * n)) 0) ^
        rankWeightExponent
    else 1
  let w2 : ℝ := if target.speciesId = iSpecies then 0 else w1
  let w3 : ℝ :=
    match target.weightModifier with
    | some wm => w2 * wm
    | none => if cupName = ("all") ∧ cp = 1500 then 0 else w2
  let adj2 := harshCurve (softCap m.adjRating)
  let w4 : ℝ :=
    if slug = ("switches") ∧ adj2 < 500 then
      w3 * (1 + (500 - adj2) ^ (2 : ℕ) / 20000)
    else w3
  let sc := adj2 * w4
  let newMatch : WMatch :=
    { adjRating := adj2, adjOpRating := m.adjOpRating, score := sc,
      opScore := m.adjOpRating * (4 : ℝ) ^ w4 }
  let w5 : ℝ :=
    if targetScore / bestScore < 0.1 + rankCutoffIncrease * n then 0 else w4
  (newMatch, sc, w5)

/-- One candidate's update in pass `n`: fold `passPairing` over its pairing
records, then push `Math.floor(score / (weights || 1))` onto `scores`. -/
noncomputable def passCandidate (pl tg : List WContestant)
    (rankings : List WRank) (slug cupName : String) (cp : ℕ) (n : ℕ)
    (bestScore : ℝ) (i : ℕ) (r : WRank) : WRank :=
  let iSpecies := (pl.getD i dWC).speciesId
  let acc :=
    (r.matchList.enum).foldl
      (fun acc pr =>
        let res := passPairing pl.length tg.length tg rankings slug cupName cp
          n bestScore iSpecies pr.1 pr.2
        (acc.1 ++ [res.1], acc.2.1 + res.2.1, acc.2.2 + res.2.2))
      (([] : List WMatch), (0 : ℝ), (0 : ℝ))
  let avgScore : ℝ :=
    ((⌊acc.2.1 / (if acc.2.2 = 0 then 1 else acc.2.2)⌋ : ℤ) : ℝ)
  { r with scores := r.scores ++ [avgScore], matchList := acc.1 }

/-- One full pass `n` of the solver: `bestScore` is the maximum pass-`n` score
across all rankings, then every candidate is updated. -/
noncomputable def applyPass (rankings : List WRank) (pl tg : List WContestant)
    (slug cupName : String) (cp : ℕ) (n : ℕ) : List WRank :=
  let bestScore := listMaxJS (rankings.map (fun r => r.scores.getD n 0))
  (rankings.enum).map
    (fun pr => passCandidate pl tg rankings slug cupName cp n bestScore pr.1 pr.2)

/-- `const iterations = cup.name === 'custom' ? 7 : 1` (line 492). -/
def weightIterations (cupName : String) : ℕ :=
  if cupName = ("custom") then 7 else 1

/-- `RankerNode.weightMatchups`: `iterations` passes of the weight solver. -/
noncomputable def weightMatchups (rankings : List WRank)
    (pl tg : List WContestant) (slug cupName : String) (cp : ℕ) :
    List WRank :=
  (List.range (weightIterations cupName)).foldl
    (fun rs n => applyPass rs pl tg slug cupName cp n) rankings

/-!  Scenario finalization (`RankerNode.finalizeRankings`, lines 605-613):
sort by score descending, then scale every score with
`Math.floor((score / highest) * 1000) / 10` where
`highest = rankings[0]?.score || 1`. -/

instance geRealIsTotal : IsTotal ℝ (fun a b => a ≥ b) :=
  ⟨fun a b => le_total b a⟩

instance geRealIsTrans : IsTrans ℝ (fun a b => a ≥ b) :=
  ⟨fun _ _ _ hab hbc => le_trans hbc hab⟩

/-- The sort-and-scale step of `finalizeRankings` applied to the list of final
solver scores (`rankings.sort((a, b) => b.score - a.score)` followed by the
0-100 scaling loop). -/
noncomputable def finalizeScale (scores : List ℝ) : List ℝ :=
  let sorted := scores.insertionSort (fun a b => a ≥ b)
  let highest : ℝ :=
    match sorted.head? with
    | none => 1
    | some h => if h = 0 then 1 else h
  sorted.map (fun s => ((⌊s / highest * 1000⌋ : ℤ) : ℝ) / 10)

/-!  Cross-scenario aggregation (`RankerOverallNode.rankOverall`,
lines 47-106). -/

/-- One persisted ranking entry as read back by the aggregator: identity and
final per-scenario score. -/
structure CatEntry where
  speciesId : String
  score : ℝ

/-- `categoryData.leads || Object.values(categoryData)[0]`: the base category
is `leads` when present, else the first available category. -/
def baseCategory (catData : List (String × List CatEntry)) : List CatEntry :=
  match catData.find? (fun pr => pr.1 == "leads") with
  | some pr => pr.2
  | none => (catData.headD (("", []))).2

/-- Gather a candidate's score from every available category
(lines 66-74: push `entry.score` whenever `find` succeeds). -/
def gatherScores (catData : List (String × List CatEntry)) (id : String) :
    List ℝ :=
  catData.filterMap
    (fun pr => ((pr.2).find? (fun e => e.speciesId == id)).map
      (fun e => e.score))

/-- The pre-rescale overall scores (lines 52-97): for every candidate of the
base category gather its scores and take
`Math.pow(scores.reduce((acc, s) => acc * Math.max(s, 0.1), 1),
1 / scores.length)`. -/
noncomputable def overallPreScores (catData : List (String × List CatEntry)) :
    List CatEntry :=
  (baseCategory catData).filterMap
    (fun pd =>
      let scores := gatherScores catData pd.speciesId
      if scores.length = 0 then none
      else some ⟨pd.speciesId,
        (scores.foldl (fun acc s => acc * max s 0.1) 1) ^
          (1 / (scores.length : ℝ))⟩)

instance geCatIsTotal : IsTotal CatEntry (fun a b => a.score ≥ b.score) :=
  ⟨fun a b => le_total b.score a.score⟩

instance geCatIsTrans : IsTrans CatEntry (fun a b => a.score ≥ b.score) :=
  ⟨fun _ _ _ hab hbc => le_trans hbc hab⟩

/-- `RankerOverallNode.rankOverall`'s scoring core: pre-scores, sort by score
descending, rescale with `Math.round((score / highest) * 1000) / 10` where
`highest = rankings[0]?.score || 1`. -/
noncomputable def rankOverall (catData : List (String × List CatEntry)) :
    List CatEntry :=
  let rankings := overallPreScores catData
  let sorted := rankings.insertionSort (fun a b => a.score ≥ b.score)
  let highest : ℝ :=
    match sorted.head? with
    | none => 1
    | some e => if e.score = 0 then 1 else e.score
  sorted.map
    (fun e => ⟨e.speciesId, ((round (e.score / highest * 1000) : ℤ) : ℝ) / 10⟩)

/-!  Claim-side (spec-worded) definitions, for refinement comparisons. -/

/-- Modelled from the claim wording for C1: the pairing weight
`max(0, targetScore/bestScore − (0.1 + 0.06×n))^1.65` when the candidate pool
size equals the target pool size (else 1), multiplied by the target's
`weightModifier`, and forced to 0 for self-matches and for any pairing whose
target's pass-n score falls below the cutoff fraction of `bestScore`. -/
noncomputable def claimPairWeight (plLen tgLen : ℕ) (tg : List WContestant)
    (rankings : List WRank) (n : ℕ) (bestScore : ℝ) (iSpecies : String)
    (j : ℕ) : ℝ :=
  let target := tg.getD j dWC
  let targetScore := (rankings.getD j dWR).scores.getD n 0
  if target.speciesId = iSpecies ∨
      targetScore / bestScore < 0.1 + 0.06 * n then 0
  else
    (if plLen = tgLen then
      (max (targetScore / bestScore - (0.1 + 0.06 * n)) 0) ^ ((1.65 : ℝ))
    else 1) * (target.weightModifier.getD 1)

/-- Modelled from the claim wording for C1: the candidate's pass-`n` score
`floor(Σ(rating × weight) / Σ(weight))` with the denominator floored to 1 if
zero, a forced-0 weight contributing to neither sum.  The pairing rating is
the pass's adjusted rating (soft cap / harsh curve applied). -/
noncomputable def claimPassScore (pl tg : List WContestant)
    (rankings : List WRank) (n : ℕ) (bestScore : ℝ) (i : ℕ) : ℝ :=
  let iSpecies := (pl.getD i dWC).speciesId
  let ms := (rankings.getD i dWR).matchList
  let num := ∑ j ∈ Finset.range ms.length,
    harshCurve (softCap (ms.getD j dWM).adjRating) *
      claimPairWeight pl.length tg.length tg rankings n bestScore iSpecies j
  let den := ∑ j ∈ Finset.range ms.length,
    claimPairWeight pl.length tg.length tg rankings n bestScore iSpecies j
  ((⌊num / (if den = 0 then 1 else den)⌋ : ℤ) : ℝ)

/-- Modelled from the claim wording for C7: the geometric mean of the
gathered scores, each floored at a minimum of 0.1. -/
noncomputable def geoMeanSpec (l : List ℝ) : ℝ :=
  (l.map (fun s => max s 0.1)).prod ^ (1 / (l.length : ℝ))

/-!  Analysis-side closed forms for the symmetric `rank` loop. -/

/-- The freshly simulated pairing of candidate index `i` against target index
`j` over a single pool `L`. -/
def directMatch (L : List Contestant) (scen : Scenario)
    (sim : Contestant → Contestant → SimOutput) (i j : ℕ) : MatchResult :=
  computeMatch (L.getD i dC) (L.getD j dC) scen
    (sim (L.getD i dC) (L.getD j dC))

/-- Closed form of the pairing recorded at row `i`, column `j` under a fully
symmetric scenario: freshly simulated when `i ≤ j`, mirrored from the earlier
row otherwise. -/
def expectedMatch (L : List Contestant) (scen : Scenario)
    (sim : Contestant → Contestant → SimOutput) (i j : ℕ) : MatchResult :=
  if i ≤ j then directMatch L scen sim i j
  else mirrorMatch (L.getD j dC) (directMatch L scen sim j i)

/-- Closed form of row `i`'s pre-solver average under a symmetric scenario. -/
def avgSpecSym (L : List Contestant) (scen : Scenario)
    (sim : Contestant → Contestant → SimOutput) (i : ℕ) : ℤ :=
  ⌊(((∑ j ∈ Finset.range L.length,
      (if (L.getD j dC).speciesId = (L.getD i dC).speciesId then 0
       else (expectedMatch L scen sim i j).adjRating)) : ℤ) : ℚ) /
    (if ((L.length : ℤ) - 1) = 0 then (1 : ℚ)
     else (((L.length : ℤ) - 1 : ℤ) : ℚ))⌋

/-- Closed form of row `i` under a symmetric scenario. -/
def rowSpecSym (L : List Contestant) (scen : Scenario)
    (sim : Contestant → Contestant → SimOutput) (i : ℕ) : RankObj :=
  { speciesId := (L.getD i dC).speciesId
    rating := avgSpecSym L scen sim i
    scores := [avgSpecSym L scen sim i]
    matchList := (List.range L.length).map (expectedMatch L scen sim i) }

/-!  Helper lemmas about totalized list indexing. -/

theorem getD_append_lt {α : Type _} (l l' : List α) (d : α) (n : ℕ)
    (h : n < l.length) : (l ++ l').getD n d = l.getD n d := by
  simp [List.getD_eq_getElem?_getD, List.getElem?_append_left h]

theorem getD_append_len {α : Type _} (l : List α) (x d : α) :
    (l ++ [x]).getD l.length d = x := by
  simp [List.getD_eq_getElem?_getD]

theorem getD_range_map {α : Type _} (f : ℕ → α) (k n : ℕ) (d : α)
    (h : n < k) : ((List.range k).map f).getD n d = f n := by
  simp [List.getD_eq_getElem?_getD, List.getElem?_map, List.getElem?_range h]

theorem length_range_map {α : Type _} (f : ℕ → α) (k : ℕ) :
    ((List.range k).map f).length = k := by simp

/-- Floors of a rational and of its reflection about 2, scaled by 500, add up
to 999 or 1000. -/
theorem floor_reflect_sum (x : ℚ) :
    ⌊x * 500⌋ + ⌊(2 - x) * 500⌋ = 999 ∨ ⌊x * 500⌋ + ⌊(2 - x) * 500⌋ = 1000 := by
  have h1 : (2 - x) * 500 = -(x * 500) + (1000 : ℤ) := by push_cast; ring
  have h2 : ⌊(2 - x) * 500⌋ = -⌈x * 500⌉ + 1000 := by
    rw [h1, Int.floor_add_int, Int.floor_neg]
  have h3 : ⌈x * 500⌉ ≤ ⌊x * 500⌋ + 1 := Int.ceil_le_floor_add_one _
  have h4 : ⌊x * 500⌋ ≤ ⌈x * 500⌉ := Int.floor_le_ceil _
  omega

/-- C10: for every simulated pairing the pre-floor health and damage fractions
of the two sides sum to exactly 2, hence the two raw ratings sum to 999 or
1000, and an exact tie between the two raw ratings forces both to be 500. -/
theorem ratings_sum_to_two (p o : Contestant) (scen : Scenario)
    (out : SimOutput) (hp : p.maxHp ≠ 0) (ho : o.maxHp ≠ 0) :
    ((out.hpA / p.maxHp + (o.maxHp - out.hpB) / o.maxHp) +
      (out.hpB / o.maxHp + (p.maxHp - out.hpA) / p.maxHp) = 2) ∧
    ((computeMatch p o scen out).rating + (computeMatch p o scen out).opRating = 999 ∨
     (computeMatch p o scen out).rating + (computeMatch p o scen out).opRating = 1000) ∧
    ((computeMatch p o scen out).rating = (computeMatch p o scen out).opRating →
      (computeMatch p o scen out).rating = 500) := by
  have h2 : (out.hpA / p.maxHp + (o.maxHp - out.hpB) / o.maxHp) +
      (out.hpB / o.maxHp + (p.maxHp - out.hpA) / p.maxHp) = 2 := by
    field_simp
    ring
  have hrat : (computeMatch p o scen out).rating =
      ⌊(out.hpA / p.maxHp + (o.maxHp - out.hpB) / o.maxHp) * 500⌋ := by
    simp [computeMatch]
  have hop : (computeMatch p o scen out).opRating =
      ⌊(out.hpB / o.maxHp + (p.maxHp - out.hpA) / p.maxHp) * 500⌋ := by
    simp [computeMatch]
  have hy : out.hpB / o.maxHp + (p.maxHp - out.hpA) / p.maxHp =
      2 - (out.hpA / p.maxHp + (o.maxHp - out.hpB) / o.maxHp) := by linarith
  have hsum := floor_reflect_sum (out.hpA / p.maxHp + (o.maxHp - out.hpB) / o.maxHp)
  rw [hy] at hop
  refine ⟨h2, ?_, ?_⟩
  · rw [hrat, hop]
    exact hsum
  · intro he
    rw [hrat] at he ⊢
    rw [hop] at he
    omega

/-- C10 witness. -/
theorem ratings_sum_to_two_witness :
    ((1 : ℚ) ≠ 0 ∧ (2 : ℚ) ≠ 0) ∧
    (((computeMatch ⟨"a", 1⟩ ⟨"b", 2⟩ ⟨"leads", (1, 1), (0, 0)⟩
        ⟨1/3, 1/2, 1, 1⟩).rating +
      (computeMatch ⟨"a", 1⟩ ⟨"b", 2⟩ ⟨"leads", (1, 1), (0, 0)⟩
        ⟨1/3, 1/2, 1, 1⟩).opRating = 999 ∨
      (computeMatch ⟨"a", 1⟩ ⟨"b", 2⟩ ⟨"leads", (1, 1), (0, 0)⟩
        ⟨1/3, 1/2, 1, 1⟩).rating +
      (computeMatch ⟨"a", 1⟩ ⟨"b", 2⟩ ⟨"leads", (1, 1), (0, 0)⟩
        ⟨1/3, 1/2, 1, 1⟩).opRating = 1000)) :=
  ⟨⟨by norm_num, by norm_num⟩,
    (ratings_sum_to_two ⟨"a", 1⟩ ⟨"b", 2⟩ ⟨"leads", (1, 1), (0, 0)⟩
      ⟨1/3, 1/2, 1, 1⟩ (by norm_num) (by norm_num)).2.1⟩

/-- C4 counterexample: with both max HP 1000, final HP 501 and 500, the
candidate's raw rating 500 is strictly higher than the opponent's 499, yet
both win multipliers are 0, so the shield-adjusted rating gets no bonus
(the claim would give the candidate multiplier 1 and adjusted rating 900). -/
theorem winMultiplier_zero_at_500_counterexample :
    (computeMatch ⟨"a", 1000⟩ ⟨"b", 1000⟩ ⟨"leads", (2, 2), (0, 0)⟩
      ⟨501, 500, 2, 0⟩).rating = 500 ∧
    (computeMatch ⟨"a", 1000⟩ ⟨"b", 1000⟩ ⟨"leads", (2, 2), (0, 0)⟩
      ⟨501, 500, 2, 0⟩).opRating = 499 ∧
    winMults 500 499 = (0, 0) ∧
    (computeMatch ⟨"a", 1000⟩ ⟨"b", 1000⟩ ⟨"leads", (2, 2), (0, 0)⟩
      ⟨501, 500, 2, 0⟩).adjRating = 500 := by
  refine ⟨?_, ?_, by decide, ?_⟩ <;> simp [computeMatch, winMults] <;> norm_num

/-- C4 (amended): the win multiplier is 1 for whichever side has the strictly
higher raw rating and 0 for the other side, except that both multipliers are 0
whenever the candidate's raw rating is exactly 500 (which subsumes the exact
500-500 tie); the multipliers gate the shield-adjustment terms. -/
theorem winMultiplier_amended (r ro : ℤ) (p o : Contestant) (scen : Scenario)
    (out : SimOutput) :
    (r = 500 → winMults r ro = (0, 0)) ∧
    (r ≠ 500 → ro < r → winMults r ro = (1, 0)) ∧
    (r ≠ 500 → ¬ ro < r → winMults r ro = (0, 1)) ∧
    ((computeMatch p o scen out).adjRating =
      (computeMatch p o scen out).rating +
      100 * (scen.shields.2 - out.shieldsB) *
        (winMults (computeMatch p o scen out).rating
          (computeMatch p o scen out).opRating).1 +
      100 * out.shieldsA *
        (winMults (computeMatch p o scen out).rating
          (computeMatch p o scen out).opRating).1) ∧
    ((computeMatch p o scen out).adjOpRating =
      (computeMatch p o scen out).opRating +
      100 * (scen.shields.1 - out.shieldsA) *
        (winMults (computeMatch p o scen out).rating
          (computeMatch p o scen out).opRating).2 +
      100 * out.shieldsB *
        (winMults (computeMatch p o scen out).rating
          (computeMatch p o scen out).opRating).2) := by
  refine ⟨?_, ?_, ?_, ?_, ?_⟩
  · intro h; simp [winMults, h]
  · intro h hlt; simp [winMults, h, hlt]
  · intro h hlt; simp [winMults, h, hlt, if_neg]
  · simp [computeMatch]
  · simp [computeMatch]

/-- C4 witness. -/
theorem winMultiplier_amended_witness :
    ((400 : ℤ) ≠ 500 ∧ (300 : ℤ) < 400) ∧ winMults 400 300 = (1, 0) :=
  ⟨⟨by decide, by decide⟩,
    (winMultiplier_amended 400 300 ⟨"a", 1⟩ ⟨"b", 1⟩ ⟨"x", (0, 0), (0, 0)⟩
      ⟨0, 0, 0, 0⟩).2.1 (by decide) (by decide)⟩

/-!  C9: the id-rule short circuit of `checkFilters`. -/

theorem filterStep_required_le (p : FPokemon) (cp : ℤ) (inc : Bool) (total : ℕ)
    (acc : FilterAcc) (f : CupFilter) :
    (filterStep p cp inc total acc f).requiredFilters ≤ acc.requiredFilters := by
  unfold filterStep
  repeat' split
  all_goals simp_all

theorem filterStep_matched_ge (p : FPokemon) (cp : ℤ) (inc : Bool) (total : ℕ)
    (acc : FilterAcc) (f : CupFilter) :
    acc.filtersMatched ≤ (filterStep p cp inc total acc f).filtersMatched := by
  unfold filterStep
  repeat' split
  all_goals simp_all

theorem filterStep_flag_mono (p : FPokemon) (cp : ℤ) (inc : Bool) (total : ℕ)
    (acc : FilterAcc) (f : CupFilter) (h : acc.includeIdFilter = true) :
    (filterStep p cp inc total acc f).includeIdFilter = true := by
  unfold filterStep
  repeat' split
  all_goals simp_all

theorem filterStep_id_hit (p : FPokemon) (cp : ℤ) (total : ℕ)
    (acc : FilterAcc) (f : CupFilter) (hap : filterApplies f cp = true)
    (vs : List String) (sh : Bool) (hk : f.kind = .fid vs sh)
    (hm : matchKind p true f.kind = true) :
    acc.filtersMatched + total ≤ (filterStep p cp true total acc f).filtersMatched ∧
    (filterStep p cp true total acc f).includeIdFilter = true := by
  unfold filterStep
  rw [hk] at hm ⊢
  simp [hap, hm]
  split <;> simp

theorem foldl_required_le (p : FPokemon) (cp : ℤ) (inc : Bool) (total : ℕ)
    (l : List CupFilter) (acc : FilterAcc) :
    (l.foldl (filterStep p cp inc total) acc).requiredFilters ≤
      acc.requiredFilters := by
  induction l generalizing acc with
  | nil => simp
  | cons f fs ih =>
    exact le_trans (ih (filterStep p cp inc total acc f))
      (filterStep_required_le p cp inc total acc f)

theorem foldl_matched_ge (p : FPokemon) (cp : ℤ) (inc : Bool) (total : ℕ)
    (l : List CupFilter) (acc : FilterAcc) :
    acc.filtersMatched ≤
      (l.foldl (filterStep p cp inc total) acc).filtersMatched := by
  induction l generalizing acc with
  | nil => simp
  | cons f fs ih =>
    exact le_trans (filterStep_matched_ge p cp inc total acc f)
      (ih (filterStep p cp inc total acc f))

theorem foldl_flag_mono (p : FPokemon) (cp : ℤ) (inc : Bool) (total : ℕ)
    (l : List CupFilter) (acc : FilterAcc) (h : acc.includeIdFilter = true) :
    (l.foldl (filterStep p cp inc total) acc).includeIdFilter = true := by
  induction l generalizing acc with
  | nil => simpa
  | cons f fs ih =>
    exact ih (filterStep p cp inc total acc f)
      (filterStep_flag_mono p cp inc total acc f h)

theorem foldl_id_hit (p : FPokemon) (cp : ℤ) (total : ℕ)
    (l : List CupFilter) (acc : FilterAcc)
    (h : ∃ f ∈ l, filterApplies f cp = true ∧
      ∃ vs sh, f.kind = FilterKind.fid vs sh ∧ matchKind p true f.kind = true) :
    acc.filtersMatched + total ≤
      (l.foldl (filterStep p cp true total) acc).filtersMatched ∧
    (l.foldl (filterStep p cp true total) acc).includeIdFilter = true := by
  induction l generalizing acc with
  | nil => simp at h
  | cons f fs ih =>
    rcases h with ⟨g, hg, hprops⟩
    rcases List.mem_cons.mp hg with rfl | hmem
    · obtain ⟨hap, vs, sh, hk, hm⟩ := hprops
      have hhit := filterStep_id_hit p cp total acc g hap vs sh hk hm
      constructor
      · exact le_trans hhit.1 (foldl_matched_ge p cp true total fs _)
      · exact foldl_flag_mono p cp true total fs _ hhit.2
    · have hrec := ih (filterStep p cp true total acc f) ⟨g, hmem, hprops⟩
      have hstep := filterStep_matched_ge p cp true total acc f
      rw [List.foldl_cons]
      exact ⟨by omega, hrec.2⟩

/-- C9: a contestant matching an applicable `id` include rule in a multi-rule
include set is accepted by `checkFilters`, whatever the other include rules
and the entire exclude list say. -/
theorem checkFilters_id_shortCircuit (p : FPokemon)
    (includeList excludeList : List CupFilter) (cp : ℤ)
    (hlen : 1 < includeList.length)
    (f : CupFilter) (hf : f ∈ includeList)
    (hap : filterApplies f cp = true)
    (vs : List String) (sh : Bool) (hk : f.kind = FilterKind.fid vs sh)
    (hm : matchKind p true f.kind = true) :
    checkFilters p includeList excludeList cp = true := by
  have hhit := foldl_id_hit p cp includeList.length includeList
    ⟨0, (includeList.length : ℤ), false⟩ ⟨f, hf, hap, vs, sh, hk, hm⟩
  have hreq := foldl_required_le p cp true includeList.length includeList
    ⟨0, (includeList.length : ℤ), false⟩
  unfold checkFilters runFilterList
  rw [if_neg]
  · refine decide_eq_true ?_
    have h1 := hhit.1
    have h2 := hreq
    dsimp only at h1 h2
    omega
  · rintro ⟨-, hfl⟩
    rw [hhit.2] at hfl
    cases hfl

/-- C9 witness: a contestant matching only the `id` rule of a two-rule include
set, with a matching exclude rule, is still accepted. -/
theorem checkFilters_id_shortCircuit_witness :
    checkFilters ⟨"azumarill", ["water", "fairy"], 184, [], []⟩
      [⟨FilterKind.ftype ["dragon"], none⟩,
       ⟨FilterKind.fid ["azumarill"] false, none⟩]
      [⟨FilterKind.ftype ["water"], none⟩] 1500 = true :=
  checkFilters_id_shortCircuit ⟨"azumarill", ["water", "fairy"], 184, [], []⟩
    [⟨FilterKind.ftype ["dragon"], none⟩,
     ⟨FilterKind.fid ["azumarill"] false, none⟩]
    [⟨FilterKind.ftype ["water"], none⟩] 1500 (by decide)
    ⟨FilterKind.fid ["azumarill"] false, none⟩ (by decide) (by decide)
    ["azumarill"] false rfl (by decide)

/-!  Closed forms for the `rank` loops. -/

theorem getD_append_eq_len {α : Type _} (l : List α) (x d : α) (n : ℕ)
    (h : l.length = n) : (l ++ [x]).getD n d = x := by
  subst h
  exact getD_append_len l x d

theorem rankRowAux_succ (pl tg : List Contestant) (scen : Scenario)
    (sim : Contestant → Contestant → SimOutput) (prev : List RankObj)
    (i : ℕ) (p : Contestant) (m : ℕ) :
    ∃ e : MatchResult,
      (rankRowAux pl tg scen sim prev i p (m + 1)).1 =
        (rankRowAux pl tg scen sim prev i p m).1 ++ [e] ∧
      (rankRowAux pl tg scen sim prev i p (m + 1)).2.1 =
        (rankRowAux pl tg scen sim prev i p m).2.1 +
          (if (tg.getD m dC).speciesId = p.speciesId then 0 else e.adjRating) := by
  by_cases h : m < prev.length ∧ pl.length = tg.length ∧
      scen.shields.1 = scen.shields.2 ∧ scen.energy.1 = scen.energy.2 ∧
      i < ((prev.getD m dR).matchList).length
  · refine ⟨mirrorMatch (tg.getD m dC) (((prev.getD m dR).matchList).getD i dM),
      ?_, ?_⟩
    · simp only [rankRowAux]
      rw [if_pos h]
    · simp only [rankRowAux]
      rw [if_pos h]
      simp [mirrorMatch]
  · refine ⟨computeMatch p (tg.getD m dC) scen (sim p (tg.getD m dC)), ?_, ?_⟩ <;>
      (simp only [rankRowAux]; rw [if_neg h])

theorem rankRowAux_fst_length (pl tg : List Contestant) (scen : Scenario)
    (sim : Contestant → Contestant → SimOutput) (prev : List RankObj)
    (i : ℕ) (p : Contestant) : ∀ m : ℕ,
    (rankRowAux pl tg scen sim prev i p m).1.length = m := by
  intro m
  induction m with
  | zero => simp [rankRowAux]
  | succ m ih =>
    obtain ⟨e, he, -⟩ := rankRowAux_succ pl tg scen sim prev i p m
    rw [he]
    simp [ih]

theorem rankRowAux_sum (pl tg : List Contestant) (scen : Scenario)
    (sim : Contestant → Contestant → SimOutput) (prev : List RankObj)
    (i : ℕ) (p : Contestant) : ∀ m : ℕ,
    (rankRowAux pl tg scen sim prev i p m).2.1 =
      ∑ j ∈ Finset.range m,
        (if (tg.getD j dC).speciesId = p.speciesId then 0
         else ((rankRowAux pl tg scen sim prev i p m).1.getD j dM).adjRating) := by
  intro m
  induction m with
  | zero => simp [rankRowAux]
  | succ m ih =>
    obtain ⟨e, he, hs⟩ := rankRowAux_succ pl tg scen sim prev i p m
    rw [hs, ih, Finset.sum_range_succ, he]
    have hlen := rankRowAux_fst_length pl tg scen sim prev i p m
    congr 1
    · apply Finset.sum_congr rfl
      intro j hj
      rw [Finset.mem_range] at hj
      rw [getD_append_lt _ _ _ _ (by rw [hlen]; exact hj)]
    · rw [getD_append_eq_len _ _ _ _ hlen]

theorem rankAux_fst_length (pl tg : List Contestant) (scen : Scenario)
    (sim : Contestant → Contestant → SimOutput) : ∀ k : ℕ,
    (rankAux pl tg scen sim k).1.length = k := by
  intro k
  induction k with
  | zero => simp [rankAux]
  | succ k ih => simp [rankAux, ih]

theorem rankAux_getD (pl tg : List Contestant) (scen : Scenario)
    (sim : Contestant → Contestant → SimOutput) : ∀ k i : ℕ, i < k →
    (rankAux pl tg scen sim k).1.getD i dR =
      (rankRow pl tg scen sim (rankAux pl tg scen sim i).1 i (pl.getD i dC)).1 := by
  intro k
  induction k with
  | zero => intro i hi; omega
  | succ k ih =>
    intro i hi
    have hunf : (rankAux pl tg scen sim (k + 1)).1 =
        (rankAux pl tg scen sim k).1 ++
          [(rankRow pl tg scen sim (rankAux pl tg scen sim k).1 k (pl.getD k dC)).1] :=
      rfl
    rcases Nat.lt_succ_iff_lt_or_eq.mp hi with h | rfl
    · rw [hunf, getD_append_lt _ _ _ _ (by rw [rankAux_fst_length]; exact h)]
      exact ih i h
    · rw [hunf, getD_append_eq_len _ _ _ _ (rankAux_fst_length pl tg scen sim i)]

theorem passPairing_mirror_zero (plLen tgLen : ℕ) (tg : List WContestant)
    (rankings : List WRank) (slug cupName : String) (cp n : ℕ)
    (bestScore : ℝ) (iSpecies : String) (j : ℕ) (mW : WMatch)
    (hmir : (tg.getD j dWC).speciesId = iSpecies) :
    (passPairing plLen tgLen tg rankings slug cupName cp n bestScore iSpecies
      j mW).2.1 = 0 ∧
    (passPairing plLen tgLen tg rankings slug cupName cp n bestScore iSpecies
      j mW).2.2 = 0 := by
  simp only [passPairing]
  rw [if_pos hmir]
  cases hmod : (tg.getD j dWC).weightModifier <;> simp

/-- C5: a self-pairing is recorded like any other pairing (the match list has
one entry per target), but is skipped in the pre-solver average (its term in
the numerator is 0 and `nonMirrorCount` already excludes it), and in every
solver pass it contributes 0 to the weighted score and 0 to the weight sum. -/
theorem mirror_excluded_everywhere (pl tg : List Contestant) (scen : Scenario)
    (sim : Contestant → Contestant → SimOutput) (i : ℕ) (hi : i < pl.length)
    (plW tgW : List WContestant) (rankings : List WRank)
    (slug cupName : String) (cp n j : ℕ) (bestScore : ℝ) (mW : WMatch)
    (hmir : (tgW.getD j dWC).speciesId = (plW.getD i dWC).speciesId) :
    (((rank pl tg scen sim).1.getD i dR).matchList.length = tg.length) ∧
    (((rank pl tg scen sim).1.getD i dR).rating =
      ⌊(((∑ k ∈ Finset.range tg.length,
          (if (tg.getD k dC).speciesId = (pl.getD i dC).speciesId then 0
           else (((rank pl tg scen sim).1.getD i dR).matchList.getD k dM).adjRating)) : ℤ) : ℚ) /
        (if ((tg.length : ℤ) - 1) = 0 then (1 : ℚ)
         else (((tg.length : ℤ) - 1 : ℤ) : ℚ))⌋) ∧
    ((passPairing plW.length tgW.length tgW rankings slug cupName cp n
        bestScore (plW.getD i dWC).speciesId j mW).2.1 = 0 ∧
     (passPairing plW.length tgW.length tgW rankings slug cupName cp n
        bestScore (plW.getD i dWC).speciesId j mW).2.2 = 0) := by
  have hrow := rankAux_getD pl tg scen sim pl.length i hi
  have hsum := rankRowAux_sum pl tg scen sim (rankAux pl tg scen sim i).1 i
    (pl.getD i dC) tg.length
  have hlen := rankRowAux_fst_length pl tg scen sim
    (rankAux pl tg scen sim i).1 i (pl.getD i dC) tg.length
  refine ⟨?_, ?_, passPairing_mirror_zero _ _ _ _ _ _ _ _ _ _ _ _ hmir⟩
  · show ((rank pl tg scen sim).1.getD i dR).matchList.length = tg.length
    rw [show (rank pl tg scen sim).1 = (rankAux pl tg scen sim pl.length).1 from rfl,
      hrow]
    simpa [rankRow] using hlen
  · rw [show (rank pl tg scen sim).1 = (rankAux pl tg scen sim pl.length).1 from rfl,
      hrow]
    simp only [rankRow]
    rw [hsum]

/-- C5 witness. -/
theorem mirror_excluded_everywhere_witness :
    (passPairing 1 1 [⟨"a", some 1⟩] [] "leads" "custom" 1500 0 1 "a" 0
      dWM).2.1 = 0 ∧
    (passPairing 1 1 [⟨"a", some 1⟩] [] "leads" "custom" 1500 0 1 "a" 0
      dWM).2.2 = 0 :=
  (mirror_excluded_everywhere [⟨"a", 10⟩] [⟨"a", 10⟩] ⟨"leads", (1, 1), (0, 0)⟩
    (fun _ _ => ⟨1, 2, 0, 0⟩) 0 (by decide) [⟨"a", some 1⟩] [⟨"a", some 1⟩] []
    "leads" "custom" 1500 0 0 1 dWM rfl).2.2

theorem rankRowAux_sym (L : List Contestant) (scen : Scenario)
    (sim : Contestant → Contestant → SimOutput)
    (hsh : scen.shields.1 = scen.shields.2)
    (hen : scen.energy.1 = scen.energy.2)
    (i : ℕ) (hi : i < L.length) (prev : List RankObj)
    (hplen : prev.length = i)
    (hmat : ∀ a, a < i → (prev.getD a dR).matchList.length = L.length ∧
      ∀ j, j < L.length →
        (prev.getD a dR).matchList.getD j dM = expectedMatch L scen sim a j) :
    ∀ m, m ≤ L.length →
      rankRowAux L L scen sim prev i (L.getD i dC) m =
        ((List.range m).map (expectedMatch L scen sim i),
         ∑ j ∈ Finset.range m,
           (if (L.getD j dC).speciesId = (L.getD i dC).speciesId then 0
            else (expectedMatch L scen sim i j).adjRating),
         m - min m i) := by
  intro m
  induction m with
  | zero => intro _; simp [rankRowAux]
  | succ m ih =>
    intro hm1
    have ihm := ih (by omega)
    by_cases hcase : m < i
    · have hcond : m < prev.length ∧ True ∧
          scen.shields.1 = scen.shields.2 ∧ scen.energy.1 = scen.energy.2 ∧
          i < ((prev.getD m dR).matchList).length := by
        refine ⟨by omega, trivial, hsh, hen, ?_⟩
        rw [(hmat m hcase).1]
        exact hi
      have hold : ((prev.getD m dR).matchList).getD i dM =
          directMatch L scen sim m i := by
        rw [(hmat m hcase).2 i hi, expectedMatch, if_pos (le_of_lt hcase)]
      have hexp : expectedMatch L scen sim i m =
          mirrorMatch (L.getD m dC) (directMatch L scen sim m i) := by
        rw [expectedMatch, if_neg (by omega)]
      simp only [rankRowAux]
      rw [if_pos hcond, ihm, hold]
      simp only [Prod.mk.injEq]
      refine ⟨?_, ?_, by omega⟩
      · rw [List.range_succ, List.map_append]
        simp only [List.map_cons, List.map_nil]
        rw [hexp]
      · rw [Finset.sum_range_succ, hexp]
        rfl
    · have hcond : ¬ (m < prev.length ∧ True ∧
          scen.shields.1 = scen.shields.2 ∧ scen.energy.1 = scen.energy.2 ∧
          i < ((prev.getD m dR).matchList).length) := by
        intro hc
        omega
      have hexp : expectedMatch L scen sim i m = directMatch L scen sim i m := by
        rw [expectedMatch, if_pos (by omega)]
      simp only [rankRowAux]
      rw [if_neg hcond, ihm]
      simp only [Prod.mk.injEq]
      refine ⟨?_, ?_, by omega⟩
      · rw [List.range_succ, List.map_append]
        simp only [List.map_cons, List.map_nil]
        rw [hexp]
        rfl
      · rw [Finset.sum_range_succ, hexp]
        rfl

theorem rankAux_sym (L : List Contestant) (scen : Scenario)
    (sim : Contestant → Contestant → SimOutput)
    (hsh : scen.shields.1 = scen.shields.2)
    (hen : scen.energy.1 = scen.energy.2) :
    ∀ k, k ≤ L.length →
      rankAux L L scen sim k =
        ((List.range k).map (rowSpecSym L scen sim),
         ∑ a ∈ Finset.range k, (L.length - a)) := by
  intro k
  induction k with
  | zero => intro _; simp [rankAux]
  | succ k ih =>
    intro hk1
    have hk : k < L.length := by omega
    have ihk := ih (by omega)
    have hprev : (rankAux L L scen sim k).1 =
        (List.range k).map (rowSpecSym L scen sim) := by rw [ihk]
    have hrowaux := rankRowAux_sym L scen sim hsh hen k hk
      ((List.range k).map (rowSpecSym L scen sim))
      (by simp)
      (fun a ha => by
        rw [getD_range_map _ _ _ _ ha]
        exact ⟨by simp [rowSpecSym], fun j _ => by
          simp only [rowSpecSym]
          exact getD_range_map _ _ _ _ (by assumption)⟩)
      L.length le_rfl
    have hunf : rankAux L L scen sim (k + 1) =
        ((rankAux L L scen sim k).1 ++
          [(rankRow L L scen sim (rankAux L L scen sim k).1 k (L.getD k dC)).1],
         (rankAux L L scen sim k).2 +
          (rankRow L L scen sim (rankAux L L scen sim k).1 k (L.getD k dC)).2) :=
      rfl
    have hrow : rankRow L L scen sim (rankAux L L scen sim k).1 k (L.getD k dC) =
        (rowSpecSym L scen sim k, L.length - k) := by
      rw [hprev]
      simp only [rankRow]
      rw [hrowaux]
      simp only [Prod.mk.injEq]
      constructor
      · simp only [rowSpecSym, avgSpecSym]
      · rw [Nat.min_eq_right (le_of_lt hk)]
    rw [hunf, hrow, hprev, ihk]
    simp only [Prod.mk.injEq]
    constructor
    · rw [List.range_succ, List.map_append]
      simp only [List.map_cons, List.map_nil]
    · rw [Finset.sum_range_succ]

theorem gauss_reflect : ∀ n : ℕ,
    2 * (∑ a ∈ Finset.range n, (n - a)) = n * (n + 1) := by
  intro n
  induction n with
  | zero => simp
  | succ n ih =>
    have h1 : ∑ a ∈ Finset.range (n + 1), (n + 1 - a) =
        (∑ a ∈ Finset.range n, (n + 1 - a)) + 1 := by
      rw [Finset.sum_range_succ]
      simp
    have h2 : ∑ a ∈ Finset.range n, (n + 1 - a) =
        ∑ a ∈ Finset.range n, ((n - a) + 1) := by
      apply Finset.sum_congr rfl
      intro a ha
      rw [Finset.mem_range] at ha
      omega
    have h3 : ∑ a ∈ Finset.range n, ((n - a) + 1) =
        (∑ a ∈ Finset.range n, (n - a)) + n := by
      rw [Finset.sum_add_distrib]
      simp
    calc 2 * (∑ a ∈ Finset.range (n + 1), (n + 1 - a))
        = 2 * (∑ a ∈ Finset.range n, (n - a)) + 2 * n + 2 := by
          rw [h1, h2, h3]; ring
      _ = n * (n + 1) + 2 * n + 2 := by rw [ih]
      _ = (n + 1) * (n + 1 + 1) := by ring

/-- C2: over a single pool under a fully symmetric scenario (equal pool sizes,
equal starting shields, equal starting energy-turns), the simulator is invoked
exactly n(n+1)/2 times for n contestants, and the raw rating recorded for
pairing (i, j) equals the opponent-raw-rating recorded for the mirrored
pairing (j, i), the latter being filled by reuse rather than simulation. -/
theorem symmetric_reuse (L : List Contestant) (scen : Scenario)
    (sim : Contestant → Contestant → SimOutput)
    (hsh : scen.shields.1 = scen.shields.2)
    (hen : scen.energy.1 = scen.energy.2) :
    (rank L L scen sim).2 = L.length * (L.length + 1) / 2 ∧
    ∀ i j, i < L.length → j < L.length → i ≠ j →
      (((rank L L scen sim).1.getD i dR).matchList.getD j dM).rating =
        (((rank L L scen sim).1.getD j dR).matchList.getD i dM).opRating := by
  have hrank : rank L L scen sim =
      ((List.range L.length).map (rowSpecSym L scen sim),
       ∑ a ∈ Finset.range L.length, (L.length - a)) :=
    rankAux_sym L scen sim hsh hen L.length le_rfl
  constructor
  · rw [hrank]
    have hg := gauss_reflect L.length
    dsimp only
    omega
  · intro i j hi hj hne
    rw [hrank]
    dsimp only
    rw [getD_range_map _ _ _ _ hi, getD_range_map _ _ _ _ hj]
    simp only [rowSpecSym]
    rw [getD_range_map _ _ _ _ hj, getD_range_map _ _ _ _ hi]
    rcases lt_or_gt_of_ne hne with h | h
    · rw [expectedMatch, if_pos (le_of_lt h)]
      rw [show expectedMatch L scen sim j i =
        mirrorMatch (L.getD i dC) (directMatch L scen sim i j) from by
          rw [expectedMatch, if_neg (by omega)]]
      rfl
    · rw [show expectedMatch L scen sim i j =
        mirrorMatch (L.getD j dC) (directMatch L scen sim j i) from by
          rw [expectedMatch, if_neg (by omega)]]
      rw [expectedMatch, if_pos (by omega)]
      rfl

/-- C2 witness. -/
theorem symmetric_reuse_witness :
    (rank [⟨"a", 10⟩, ⟨"b", 20⟩] [⟨"a", 10⟩, ⟨"b", 20⟩]
      ⟨"leads", (1, 1), (0, 0)⟩
      (fun p o => ⟨p.maxHp / 2, o.maxHp / 4, 1, 0⟩)).2 = 3 ∧
    (((rank [⟨"a", 10⟩, ⟨"b", 20⟩] [⟨"a", 10⟩, ⟨"b", 20⟩]
        ⟨"leads", (1, 1), (0, 0)⟩
        (fun p o => ⟨p.maxHp / 2, o.maxHp / 4, 1, 0⟩)).1.getD 0 dR).matchList.getD
          1 dM).rating =
      (((rank [⟨"a", 10⟩, ⟨"b", 20⟩] [⟨"a", 10⟩, ⟨"b", 20⟩]
        ⟨"leads", (1, 1), (0, 0)⟩
        (fun p o => ⟨p.maxHp / 2, o.maxHp / 4, 1, 0⟩)).1.getD 1 dR).matchList.getD
          0 dM).opRating :=
  ⟨(symmetric_reuse [⟨"a", 10⟩, ⟨"b", 20⟩] ⟨"leads", (1, 1), (0, 0)⟩
      (fun p o => ⟨p.maxHp / 2, o.maxHp / 4, 1, 0⟩) rfl rfl).1,
   (symmetric_reuse [⟨"a", 10⟩, ⟨"b", 20⟩] ⟨"leads", (1, 1), (0, 0)⟩
      (fun p o => ⟨p.maxHp / 2, o.maxHp / 4, 1, 0⟩) rfl rfl).2 0 1
      (by decide) (by decide) (by decide)⟩

theorem rankRowAux_noReuse (pl tg : List Contestant) (scen : Scenario)
    (sim : Contestant → Contestant → SimOutput)
    (hsh : scen.shields.1 ≠ scen.shields.2) (prev : List RankObj)
    (i : ℕ) (p : Contestant) :
    ∀ m, (rankRowAux pl tg scen sim prev i p m).1 =
      (List.range m).map
        (fun j => computeMatch p (tg.getD j dC) scen (sim p (tg.getD j dC))) := by
  intro m
  induction m with
  | zero => simp [rankRowAux]
  | succ m ih =>
    simp only [rankRowAux]
    rw [if_neg (fun hc => hsh hc.2.2.1)]
    dsimp only
    rw [ih, List.range_succ, List.map_append]
    simp only [List.map_cons, List.map_nil]

/-- C3: the recorded raw rating of a simulated pairing is
`floor((healthRating + damageRating) × 500)` with
`healthRating = finalHP / maxHP` and
`damageRating = (opponentMaxHP − opponentFinalHP) / opponentMaxHP`, the
opponent's rating being the symmetric formula; and whenever the symmetric
reuse cannot apply (here: unequal starting shields), the pairing recorded by
`rank` at row `i`, column `j` is exactly this freshly simulated result. -/
theorem recorded_rating_formula (p o : Contestant) (scenA : Scenario)
    (out : SimOutput) (pl tg : List Contestant) (scen : Scenario)
    (sim : Contestant → Contestant → SimOutput) (i j : ℕ) :
    ((computeMatch p o scenA out).rating =
      ⌊(out.hpA / p.maxHp + (o.maxHp - out.hpB) / o.maxHp) * 500⌋ ∧
     (computeMatch p o scenA out).opRating =
      ⌊(out.hpB / o.maxHp + (p.maxHp - out.hpA) / p.maxHp) * 500⌋) ∧
    (scen.shields.1 ≠ scen.shields.2 → i < pl.length → j < tg.length →
      ((rank pl tg scen sim).1.getD i dR).matchList.getD j dM =
        computeMatch (pl.getD i dC) (tg.getD j dC) scen
          (sim (pl.getD i dC) (tg.getD j dC))) := by
  refine ⟨⟨by simp [computeMatch], by simp [computeMatch]⟩, ?_⟩
  intro hsh hi hj
  rw [show (rank pl tg scen sim).1 = (rankAux pl tg scen sim pl.length).1 from
    rfl]
  rw [rankAux_getD pl tg scen sim pl.length i hi]
  simp only [rankRow]
  rw [rankRowAux_noReuse pl tg scen sim hsh _ i (pl.getD i dC) tg.length]
  exact getD_range_map _ _ _ _ hj

/-- C3 witness. -/
theorem recorded_rating_formula_witness :
    ((computeMatch ⟨"a", 10⟩ ⟨"b", 20⟩ ⟨"closers", (2, 1), (0, 0)⟩
        ⟨5, 5, 2, 1⟩).rating =
      ⌊((5 : ℚ) / 10 + (20 - 5) / 20) * 500⌋ ∧
     (computeMatch ⟨"a", 10⟩ ⟨"b", 20⟩ ⟨"closers", (2, 1), (0, 0)⟩
        ⟨5, 5, 2, 1⟩).opRating =
      ⌊((5 : ℚ) / 20 + (10 - 5) / 10) * 500⌋) ∧
    ((2 : ℤ) ≠ 1 ∧ (0 : ℕ) < 2 ∧ (1 : ℕ) < 2) ∧
    ((rank [⟨"a", 10⟩, ⟨"b", 20⟩] [⟨"a", 10⟩, ⟨"b", 20⟩]
        ⟨"closers", (2, 1), (0, 0)⟩
        (fun p o => ⟨p.maxHp / 2, o.maxHp / 4, 1, 0⟩)).1.getD 0
          dR).matchList.getD 1 dM =
      computeMatch ⟨"a", 10⟩ ⟨"b", 20⟩ ⟨"closers", (2, 1), (0, 0)⟩
        ((fun (p o : Contestant) =>
            (⟨p.maxHp / 2, o.maxHp / 4, 1, 0⟩ : SimOutput))
          ⟨"a", 10⟩ ⟨"b", 20⟩) :=
  ⟨(recorded_rating_formula ⟨"a", 10⟩ ⟨"b", 20⟩ ⟨"closers", (2, 1), (0, 0)⟩
      ⟨5, 5, 2, 1⟩ [⟨"a", 10⟩, ⟨"b", 20⟩] [⟨"a", 10⟩, ⟨"b", 20⟩]
      ⟨"closers", (2, 1), (0, 0)⟩
      (fun p o => ⟨p.maxHp / 2, o.maxHp / 4, 1, 0⟩) 0 1).1,
   ⟨by decide, by decide, by decide⟩,
   (recorded_rating_formula ⟨"a", 10⟩ ⟨"b", 20⟩ ⟨"closers", (2, 1), (0, 0)⟩
      ⟨5, 5, 2, 1⟩ [⟨"a", 10⟩, ⟨"b", 20⟩] [⟨"a", 10⟩, ⟨"b", 20⟩]
      ⟨"closers", (2, 1), (0, 0)⟩
      (fun p o => ⟨p.maxHp / 2, o.maxHp / 4, 1, 0⟩) 0 1).2
      (by decide) (by decide) (by decide)⟩

theorem getD_enum_map {α β : Type _} (l : List α) (f : ℕ × α → β) (i : ℕ)
    (hi : i < l.length) (d : β) (dl : α) :
    ((l.enum).map f).getD i d = f (i, l.getD i dl) := by
  simp [List.getD_eq_getElem?_getD, List.getElem?_map, List.getElem?_enum,
    List.getElem?_eq_getElem hi]

theorem applyPass_length (rankings : List WRank) (pl tg : List WContestant)
    (slug cupName : String) (cp n : ℕ) :
    (applyPass rankings pl tg slug cupName cp n).length = rankings.length := by
  simp [applyPass]

theorem passCandidate_scores_length (pl tg : List WContestant)
    (rankings : List WRank) (slug cupName : String) (cp n : ℕ)
    (bestScore : ℝ) (i : ℕ) (r : WRank) :
    (passCandidate pl tg rankings slug cupName cp n bestScore i r).scores.length
      = r.scores.length + 1 := by
  simp [passCandidate]

theorem applyPass_scores_length (rankings : List WRank)
    (pl tg : List WContestant) (slug cupName : String) (cp n i : ℕ)
    (hi : i < rankings.length) :
    ((applyPass rankings pl tg slug cupName cp n).getD i dWR).scores.length =
      (rankings.getD i dWR).scores.length + 1 := by
  simp only [applyPass]
  rw [getD_enum_map rankings _ i hi dWR dWR]
  exact passCandidate_scores_length pl tg rankings slug cupName cp n _ i _

theorem passFoldList_scores_length (rankings : List WRank)
    (pl tg : List WContestant) (slug cupName : String) (cp : ℕ) :
    ∀ (ns : List ℕ) (rs : List WRank) (i : ℕ), i < rs.length →
      ((ns.foldl (fun rs n => applyPass rs pl tg slug cupName cp n) rs).getD i
        dWR).scores.length =
      (rs.getD i dWR).scores.length + ns.length := by
  intro ns
  induction ns with
  | nil => intro rs i _; simp
  | cons n ns ih =>
    intro rs i hi
    rw [List.foldl_cons]
    rw [ih (applyPass rs pl tg slug cupName cp n) i
      (by rw [applyPass_length]; exact hi)]
    rw [applyPass_scores_length rs pl tg slug cupName cp n i hi]
    simp only [List.length_cons]
    omega

/-- C8: the solver performs 7 passes for the ad-hoc `custom` cup and exactly
1 pass for any other cup name (the path taken when deriving from an official
roster); each pass appends exactly one score per candidate. -/
theorem solver_pass_counts :
    weightIterations ("custom") = 7 ∧
    (∀ c : String, c ≠ "custom" → weightIterations c = 1) ∧
    (∀ (rankings : List WRank) (pl tg : List WContestant)
        (slug cupName : String) (cp i : ℕ), i < rankings.length →
      ((weightMatchups rankings pl tg slug cupName cp).getD i
          dWR).scores.length =
        (rankings.getD i dWR).scores.length + weightIterations cupName) := by
  refine ⟨rfl, ?_, ?_⟩
  · intro c hc
    simp [weightIterations, hc]
  · intro rankings pl tg slug cupName cp i hi
    rw [show weightMatchups rankings pl tg slug cupName cp =
      (List.range (weightIterations cupName)).foldl
        (fun rs n => applyPass rs pl tg slug cupName cp n) rankings from rfl]
    rw [passFoldList_scores_length rankings pl tg slug cupName cp
      (List.range (weightIterations cupName)) rankings i hi]
    simp

/-- C8 witness. -/
theorem solver_pass_counts_witness :
    weightIterations ("custom") = 7 ∧
    weightIterations ("all") = 1 ∧
    ((0 : ℕ) < 1 ∧
      ((weightMatchups [⟨"a", [0], []⟩] [] [] "leads" "all" 1500).getD 0
          dWR).scores.length =
        (([⟨"a", [0], []⟩] : List WRank).getD 0 dWR).scores.length +
          weightIterations ("all")) :=
  ⟨solver_pass_counts.1,
   solver_pass_counts.2.1 ("all") (by decide),
   by decide,
   solver_pass_counts.2.2 [⟨"a", [0], []⟩] [] [] "leads" "all" 1500 0
     (by decide)⟩

theorem passPairing_claim_eq (plLen tgLen : ℕ) (tg : List WContestant)
    (rankings : List WRank) (slug cupName : String) (cp n : ℕ)
    (bestScore : ℝ) (iSpecies : String) (j : ℕ) (m : WMatch)
    (hlen : plLen = tgLen) (hslug : slug ≠ ("switches"))
    (hmod : ((tg.getD j dWC).weightModifier).isSome = true) :
    (passPairing plLen tgLen tg rankings slug cupName cp n bestScore iSpecies
        j m).2.1 =
      harshCurve (softCap m.adjRating) *
        claimPairWeight plLen tgLen tg rankings n bestScore iSpecies j ∧
    (passPairing plLen tgLen tg rankings slug cupName cp n bestScore iSpecies
        j m).2.2 =
      claimPairWeight plLen tgLen tg rankings n bestScore iSpecies j := by
  obtain ⟨wm, hwm⟩ := Option.isSome_iff_exists.mp hmod
  have hsw : ¬ (slug = ("switches") ∧ harshCurve (softCap m.adjRating) < 500) :=
    fun hc => hslug hc.1
  by_cases hmir : (tg.getD j dWC).speciesId = iSpecies
  · constructor <;>
      simp [passPairing, claimPairWeight, hwm, hmir, hlen, hsw,
        -List.getD_eq_getElem?_getD]
  · by_cases hcut : (rankings.getD j dWR).scores.getD n 0 / bestScore <
        0.1 + 0.06 * n
    · have hw1 : (max ((rankings.getD j dWR).scores.getD n 0 / bestScore -
          (0.1 + 0.06 * (n : ℝ))) 0) ^ ((1.65 : ℝ)) = 0 := by
        rw [max_eq_right (by linarith), Real.zero_rpow (by norm_num)]
      constructor <;>
        simp [passPairing, claimPairWeight, hwm, hmir, hlen, hsw, hcut, hw1,
          -List.getD_eq_getElem?_getD]
    · constructor <;>
        simp [passPairing, claimPairWeight, hwm, hmir, hlen, hsw, hcut,
          -List.getD_eq_getElem?_getD]

theorem passFold_enumFrom (pl tg : List WContestant) (rankings : List WRank)
    (slug cupName : String) (cp n : ℕ) (bestScore : ℝ) (iSpecies : String) :
    ∀ (ms : List WMatch) (k : ℕ) (acc : List WMatch × ℝ × ℝ),
      (List.enumFrom k ms).foldl
        (fun acc pr =>
          let res := passPairing pl.length tg.length tg rankings slug cupName
            cp n bestScore iSpecies pr.1 pr.2
          (acc.1 ++ [res.1], acc.2.1 + res.2.1, acc.2.2 + res.2.2)) acc =
      (acc.1 ++ (List.range ms.length).map (fun j =>
          (passPairing pl.length tg.length tg rankings slug cupName cp n
            bestScore iSpecies (k + j) (ms.getD j dWM)).1),
       acc.2.1 + ∑ j ∈ Finset.range ms.length,
          (passPairing pl.length tg.length tg rankings slug cupName cp n
            bestScore iSpecies (k + j) (ms.getD j dWM)).2.1,
       acc.2.2 + ∑ j ∈ Finset.range ms.length,
          (passPairing pl.length tg.length tg rankings slug cupName cp n
            bestScore iSpecies (k + j) (ms.getD j dWM)).2.2) := by
  intro ms
  induction ms with
  | nil => intro k acc; simp
  | cons m ms ih =>
    intro k acc
    rw [show List.enumFrom k (m :: ms) = (k, m) :: List.enumFrom (k + 1) ms
      from rfl, List.foldl_cons, ih (k + 1) _]
    simp only [Prod.mk.injEq]
    refine ⟨?_, ?_, ?_⟩
    · have hmap : List.map ((fun j =>
          (passPairing pl.length tg.length tg rankings slug cupName cp n
            bestScore iSpecies (k + j) ((m :: ms).getD j dWM)).1) ∘ Nat.succ)
            (List.range ms.length) =
          List.map (fun j =>
            (passPairing pl.length tg.length tg rankings slug cupName cp n
              bestScore iSpecies (k + 1 + j) (ms.getD j dWM)).1)
            (List.range ms.length) := by
        apply List.map_congr_left
        intro j _
        simp only [Function.comp_apply, List.getD_cons_succ]
        rw [show k + Nat.succ j = k + 1 + j by omega]
      rw [List.append_assoc, List.singleton_append, List.length_cons,
        List.range_succ_eq_map, List.map_cons, List.map_map, hmap]
      simp only [Nat.add_zero, List.getD_cons_zero]
    · have hsum : ∑ i ∈ Finset.range ms.length,
          (passPairing pl.length tg.length tg rankings slug cupName cp n
            bestScore iSpecies (k + (i + 1)) ((m :: ms).getD (i + 1) dWM)).2.1 =
          ∑ j ∈ Finset.range ms.length,
            (passPairing pl.length tg.length tg rankings slug cupName cp n
              bestScore iSpecies (k + 1 + j) (ms.getD j dWM)).2.1 := by
        apply Finset.sum_congr rfl
        intro j _
        simp only [List.getD_cons_succ]
        rw [show k + (j + 1) = k + 1 + j by omega]
      rw [List.length_cons, Finset.sum_range_succ', hsum]
      simp only [Nat.add_zero, List.getD_cons_zero]
      ring
    · have hsum : ∑ i ∈ Finset.range ms.length,
          (passPairing pl.length tg.length tg rankings slug cupName cp n
            bestScore iSpecies (k + (i + 1)) ((m :: ms).getD (i + 1) dWM)).2.2 =
          ∑ j ∈ Finset.range ms.length,
            (passPairing pl.length tg.length tg rankings slug cupName cp n
              bestScore iSpecies (k + 1 + j) (ms.getD j dWM)).2.2 := by
        apply Finset.sum_congr rfl
        intro j _
        simp only [List.getD_cons_succ]
        rw [show k + (j + 1) = k + 1 + j by omega]
      rw [List.length_cons, Finset.sum_range_succ', hsum]
      simp only [Nat.add_zero, List.getD_cons_zero]
      ring

theorem passCandidate_scores (pl tg : List WContestant)
    (rankings : List WRank) (slug cupName : String) (cp n : ℕ)
    (bestScore : ℝ) (i : ℕ) (r : WRank) :
    (passCandidate pl tg rankings slug cupName cp n bestScore i r).scores =
      r.scores ++
        [((⌊(∑ j ∈ Finset.range r.matchList.length,
            (passPairing pl.length tg.length tg rankings slug cupName cp n
              bestScore (pl.getD i dWC).speciesId j
              (r.matchList.getD j dWM)).2.1) /
          (if (∑ j ∈ Finset.range r.matchList.length,
              (passPairing pl.length tg.length tg rankings slug cupName cp n
                bestScore (pl.getD i dWC).speciesId j
                (r.matchList.getD j dWM)).2.2) = 0 then 1
           else (∑ j ∈ Finset.range r.matchList.length,
              (passPairing pl.length tg.length tg rankings slug cupName cp n
                bestScore (pl.getD i dWC).speciesId j
                (r.matchList.getD j dWM)).2.2))⌋ : ℤ) : ℝ)] := by
  simp only [passCandidate]
  rw [show r.matchList.enum = List.enumFrom 0 r.matchList from rfl]
  rw [passFold_enumFrom pl tg rankings slug cupName cp n bestScore
    (pl.getD i dWC).speciesId r.matchList 0 (([] : List WMatch), (0 : ℝ), (0 : ℝ))]
  simp only [zero_add, Nat.zero_add]

/-- C1 (amended): when the candidate pool size equals the target pool size,
the scenario is not `switches`, the pass's best score is positive, and every
paired target carries a defined `weightModifier`, the candidate's pass-n score
is exactly `floor(Σ(rating × weight) / Σ(weight))` with the denominator
floored to 1 if zero, where the weight is
`max(0, targetScore/bestScore − (0.1 + 0.06n))^1.65 × weightModifier`, forced
to 0 for self-matches and below-cutoff targets (contributing to neither sum).
When the pool sizes differ, a below-cutoff pairing still contributes
`rating × weight` to the numerator (see the counterexample). -/
theorem solver_pass_score_amended (rankings : List WRank)
    (pl tg : List WContestant) (slug cupName : String) (cp n i : ℕ)
    (hlen : pl.length = tg.length) (hslug : slug ≠ ("switches"))
    (hi : i < rankings.length)
    (hmods : ∀ j, j < (rankings.getD i dWR).matchList.length →
      ((tg.getD j dWC).weightModifier).isSome = true)
    (hbest : 0 < listMaxJS (rankings.map (fun r => r.scores.getD n 0))) :
    ((applyPass rankings pl tg slug cupName cp n).getD i dWR).scores =
      (rankings.getD i dWR).scores ++
        [claimPassScore pl tg rankings n
          (listMaxJS (rankings.map (fun r => r.scores.getD n 0))) i] := by
  simp only [applyPass]
  rw [getD_enum_map rankings _ i hi dWR dWR]
  rw [passCandidate_scores]
  congr 2
  have hS : ∑ j ∈ Finset.range (rankings.getD i dWR).matchList.length,
      (passPairing pl.length tg.length tg rankings slug cupName cp n
        (listMaxJS (rankings.map (fun r => r.scores.getD n 0)))
        (pl.getD i dWC).speciesId j
        ((rankings.getD i dWR).matchList.getD j dWM)).2.1 =
      ∑ j ∈ Finset.range (rankings.getD i dWR).matchList.length,
        harshCurve (softCap
            (((rankings.getD i dWR).matchList.getD j dWM)).adjRating) *
          claimPairWeight pl.length tg.length tg rankings n
            (listMaxJS (rankings.map (fun r => r.scores.getD n 0)))
            (pl.getD i dWC).speciesId j := by
    apply Finset.sum_congr rfl
    intro j hj
    exact (passPairing_claim_eq pl.length tg.length tg rankings slug cupName
      cp n _ _ j _ hlen hslug (hmods j (Finset.mem_range.mp hj))).1
  have hW : ∑ j ∈ Finset.range (rankings.getD i dWR).matchList.length,
      (passPairing pl.length tg.length tg rankings slug cupName cp n
        (listMaxJS (rankings.map (fun r => r.scores.getD n 0)))
        (pl.getD i dWC).speciesId j
        ((rankings.getD i dWR).matchList.getD j dWM)).2.2 =
      ∑ j ∈ Finset.range (rankings.getD i dWR).matchList.length,
        claimPairWeight pl.length tg.length tg rankings n
          (listMaxJS (rankings.map (fun r => r.scores.getD n 0)))
          (pl.getD i dWC).speciesId j := by
    apply Finset.sum_congr rfl
    intro j hj
    exact (passPairing_claim_eq pl.length tg.length tg rankings slug cupName
      cp n _ _ j _ hlen hslug (hmods j (Finset.mem_range.mp hj))).2
  rw [hS, hW]
  rfl

/-- C1 witness. -/
theorem solver_pass_score_amended_witness :
    (((2 : ℕ) = 2) ∧ ("leads" : String) ≠ ("switches") ∧ (0 : ℕ) < 2) ∧
    ((applyPass
        [⟨"a", [1000], [⟨400, 300, 0, 0⟩, ⟨400, 300, 0, 0⟩]⟩,
         ⟨"b", [50], [⟨400, 300, 0, 0⟩, ⟨400, 300, 0, 0⟩]⟩]
        [⟨"a", some 1⟩, ⟨"b", some 1⟩] [⟨"a", some 1⟩, ⟨"b", some 1⟩]
        "leads" "custom" 1500 0).getD 0 dWR).scores =
      (([⟨"a", [1000], [⟨400, 300, 0, 0⟩, ⟨400, 300, 0, 0⟩]⟩,
         ⟨"b", [50], [⟨400, 300, 0, 0⟩, ⟨400, 300, 0, 0⟩]⟩] :
          List WRank).getD 0 dWR).scores ++
        [claimPassScore [⟨"a", some 1⟩, ⟨"b", some 1⟩]
          [⟨"a", some 1⟩, ⟨"b", some 1⟩]
          [⟨"a", [1000], [⟨400, 300, 0, 0⟩, ⟨400, 300, 0, 0⟩]⟩,
           ⟨"b", [50], [⟨400, 300, 0, 0⟩, ⟨400, 300, 0, 0⟩]⟩] 0
          (listMaxJS
            (([⟨"a", [1000], [⟨400, 300, 0, 0⟩, ⟨400, 300, 0, 0⟩]⟩,
               ⟨"b", [50], [⟨400, 300, 0, 0⟩, ⟨400, 300, 0, 0⟩]⟩] :
                List WRank).map (fun r => r.scores.getD 0 0))) 0] :=
  ⟨⟨rfl, by decide, by decide⟩,
   solver_pass_score_amended
    [⟨"a", [1000], [⟨400, 300, 0, 0⟩, ⟨400, 300, 0, 0⟩]⟩,
     ⟨"b", [50], [⟨400, 300, 0, 0⟩, ⟨400, 300, 0, 0⟩]⟩]
    [⟨"a", some 1⟩, ⟨"b", some 1⟩] [⟨"a", some 1⟩, ⟨"b", some 1⟩]
    "leads" "custom" 1500 0 0 rfl (by decide) (by decide) (by decide)
    (by norm_num [listMaxJS, lt_max_iff])⟩

/-- C1 counterexample: with candidate pool size 2 and target pool size 1
(`filterTargets`-style asymmetry), the below-cutoff pairing keeps weight 1
in the numerator (`score += sc` runs before the cutoff zeroes the weight), so
the appended pass score is 400, while the claim's formula - which drops the
pairing from both sums - yields 0. -/
theorem solver_pass_score_counterexample :
    ((applyPass
        [⟨"a", [50], [⟨400, 300, 0, 0⟩]⟩, ⟨"b", [1000], [⟨400, 300, 0, 0⟩]⟩]
        [⟨"a", some 1⟩, ⟨"b", some 1⟩] [⟨"a", some 1⟩]
        "leads" "custom" 1500 0).getD 1 dWR).scores = [(1000 : ℝ), 400] ∧
    claimPassScore [⟨"a", some 1⟩, ⟨"b", some 1⟩] [⟨"a", some 1⟩]
      [⟨"a", [50], [⟨400, 300, 0, 0⟩]⟩, ⟨"b", [1000], [⟨400, 300, 0, 0⟩]⟩] 0
      (listMaxJS
        (([⟨"a", [50], [⟨400, 300, 0, 0⟩]⟩,
           ⟨"b", [1000], [⟨400, 300, 0, 0⟩]⟩] : List WRank).map
          (fun r => r.scores.getD 0 0))) 1 = 0 ∧
    (400 : ℝ) ≠ 0 := by
  have hmax : listMaxJS
      (([⟨"a", [50], [⟨400, 300, 0, 0⟩]⟩,
         ⟨"b", [1000], [⟨400, 300, 0, 0⟩]⟩] : List WRank).map
        (fun r => r.scores.getD 0 0)) = (1000 : ℝ) := by
    norm_num [listMaxJS, max_eq_right]
  refine ⟨?_, ?_, by norm_num⟩
  · simp only [applyPass]
    rw [getD_enum_map _ _ 1 (by decide) dWR dWR]
    rw [passCandidate_scores]
    rw [hmax]
    norm_num [passPairing, softCap, harshCurve, claimPairWeight,
      Finset.sum_range_one]
    rw [if_neg (by decide : ¬ ("leads" : String) = ("switches")),
      if_neg (by decide : ¬ ("a" : String) = ("b"))]
    norm_num
  · simp only [claimPassScore]
    rw [hmax]
    norm_num [claimPairWeight, Finset.sum_range_one]

theorem head_insertionSort_ge (l : List ℝ) (x : ℝ) (hx : x ∈ l) (y : ℝ)
    (hy : (l.insertionSort (fun a b => a ≥ b)).head? = some y) : x ≤ y := by
  have hsorted : (l.insertionSort (fun a b => a ≥ b)).Sorted
      (fun a b => a ≥ b) := List.sorted_insertionSort _ l
  have hmem : x ∈ l.insertionSort (fun a b => a ≥ b) :=
    (List.perm_insertionSort _ l).mem_iff.mpr hx
  rcases hsort : l.insertionSort (fun a b => a ≥ b) with - | ⟨h, t⟩
  · rw [hsort] at hy; cases hy
  · rw [hsort] at hy hmem hsorted
    injection hy with hy
    subst hy
    rcases List.mem_cons.mp hmem with rfl | hmem'
    · exact le_refl x
    · exact (List.sorted_cons.mp hsorted).1 x hmem'

theorem head_mem_of_insertionSort (l : List ℝ) (y : ℝ)
    (hy : (l.insertionSort (fun a b => a ≥ b)).head? = some y) : y ∈ l := by
  have := List.mem_of_mem_head? hy
  exact (List.perm_insertionSort _ l).mem_iff.mp this

/-- C6 counterexample: a ranking list whose top pre-scale score is 0 (for
example a single-contestant scenario, where the only pairing is the skipped
mirror match) finalizes to 0, not to 100. -/
theorem finalize_scale_counterexample :
    (finalizeScale [0]).head? = some 0 ∧ (0 : ℝ) ≠ 100 := by
  constructor
  · simp [finalizeScale, List.insertionSort, List.orderedInsert]
  · norm_num

/-- C6 (amended): for a non-empty ranking list of nonnegative scores with a
positive top score, finalization scales every score to
`floor(score/highest × 1000) / 10` (as a multiset, via the descending sort),
the top entry is exactly 100.0, and every entry lies in [0, 100].  When every
score is 0, the `|| 1` fallback makes every final score 0 instead (see the
counterexample). -/
theorem finalize_scale_amended (scores : List ℝ) (hne : scores ≠ [])
    (hnn : ∀ s ∈ scores, 0 ≤ s) (hpos : ∃ s ∈ scores, 0 < s) :
    (finalizeScale scores).head? = some 100 ∧
    (∀ x ∈ finalizeScale scores, 0 ≤ x ∧ x ≤ 100) ∧
    (∃ H, H ∈ scores ∧ (∀ s ∈ scores, s ≤ H) ∧
      (finalizeScale scores).Perm
        (scores.map (fun s => ((⌊s / H * 1000⌋ : ℤ) : ℝ) / 10))) := by
  have hsne : scores.insertionSort (fun a b => a ≥ b) ≠ [] := by
    intro hcon
    apply hne
    have := (List.perm_insertionSort (fun a b => a ≥ b) scores).length_eq
    rw [hcon] at this
    exact List.length_eq_zero.mp this.symm
  obtain ⟨y, hy⟩ : ∃ y,
      (scores.insertionSort (fun a b => a ≥ b)).head? = some y := by
    rcases hh : scores.insertionSort (fun a b => a ≥ b) with - | ⟨a, t⟩
    · exact absurd hh hsne
    · exact ⟨a, by simp [hh]⟩
  have hymem : y ∈ scores := head_mem_of_insertionSort scores y hy
  have hyub : ∀ s ∈ scores, s ≤ y := fun s hs =>
    head_insertionSort_ge scores s hs y hy
  have hypos : (0 : ℝ) < y := by
    obtain ⟨s, hs, hsp⟩ := hpos
    exact lt_of_lt_of_le hsp (hyub s hs)
  have hyne : y ≠ 0 := ne_of_gt hypos
  have hunf : finalizeScale scores =
      (scores.insertionSort (fun a b => a ≥ b)).map
        (fun s => ((⌊s / y * 1000⌋ : ℤ) : ℝ) / 10) := by
    simp only [finalizeScale]
    rw [hy]
    simp [hyne]
  refine ⟨?_, ?_, ⟨y, hymem, hyub, ?_⟩⟩
  · rcases hh : scores.insertionSort (fun a b => a ≥ b) with - | ⟨a, t⟩
    · exact absurd hh hsne
    · have hay : a = y := by
        have h2 := hy
        rw [hh] at h2
        exact Option.some.inj h2
      rw [hunf, hh, List.map_cons, hay]
      show some (((⌊y / y * 1000⌋ : ℤ) : ℝ) / 10) = some 100
      rw [div_self hyne]
      norm_num
  · intro x hx
    rw [hunf] at hx
    obtain ⟨s, hsmem, rfl⟩ := List.mem_map.mp hx
    have hsmem2 : s ∈ scores :=
      (List.perm_insertionSort (fun a b => a ≥ b) scores).mem_iff.mp hsmem
    have h0 : (0 : ℝ) ≤ s := hnn s hsmem2
    have h1 : s ≤ y := hyub s hsmem2
    have hratio0 : (0 : ℝ) ≤ s / y * 1000 := by positivity
    have hratio1 : s / y * 1000 ≤ 1000 := by
      have hone : s / y ≤ 1 := (div_le_one hypos).mpr h1
      nlinarith
    constructor
    · have hfl : (0 : ℤ) ≤ ⌊s / y * 1000⌋ :=
        Int.le_floor.mpr (by exact_mod_cast hratio0)
      have hcast : ((0 : ℤ) : ℝ) ≤ ((⌊s / y * 1000⌋ : ℤ) : ℝ) := by
        exact_mod_cast hfl
      rw [Int.cast_zero] at hcast
      linarith
    · have h1000 : ⌊(1000 : ℝ)⌋ = 1000 := by norm_num
      have hfl : ⌊s / y * 1000⌋ ≤ 1000 := by
        have := Int.floor_le_floor (α := ℝ) hratio1
        rw [h1000] at this
        exact this
      have hcast : ((⌊s / y * 1000⌋ : ℤ) : ℝ) ≤ 1000 := by exact_mod_cast hfl
      linarith
  · rw [hunf]
    exact (List.perm_insertionSort (fun a b => a ≥ b) scores).map _

/-- C6 witness. -/
theorem finalize_scale_amended_witness :
    (finalizeScale [50, 100]).head? = some 100 ∧
    (∀ x ∈ finalizeScale [50, 100], 0 ≤ x ∧ x ≤ 100) ∧
    (∃ H, H ∈ ([50, 100] : List ℝ) ∧ (∀ s ∈ ([50, 100] : List ℝ), s ≤ H) ∧
      (finalizeScale [50, 100]).Perm
        (([50, 100] : List ℝ).map
          (fun s => ((⌊s / H * 1000⌋ : ℤ) : ℝ) / 10))) :=
  finalize_scale_amended [50, 100] (by simp)
    (by
      intro s hs
      simp only [List.mem_cons, List.not_mem_nil, or_false] at hs
      rcases hs with rfl | rfl <;> norm_num)
    ⟨100, by simp, by norm_num⟩

theorem foldl_mul_maxprod (l : List ℝ) : ∀ init : ℝ,
    l.foldl (fun acc s => acc * max s 0.1) init =
      init * (l.map (fun s => max s 0.1)).prod := by
  induction l with
  | nil => intro init; simp
  | cons a l ih =>
    intro init
    rw [List.foldl_cons, ih (init * max a 0.1), List.map_cons, List.prod_cons]
    ring

theorem head_insertionSortCat_ge (l : List CatEntry) (x : CatEntry)
    (hx : x ∈ l) (y : CatEntry)
    (hy : (l.insertionSort (fun a b => a.score ≥ b.score)).head? = some y) :
    x.score ≤ y.score := by
  have hsorted : (l.insertionSort (fun a b => a.score ≥ b.score)).Sorted
      (fun a b => a.score ≥ b.score) := List.sorted_insertionSort _ l
  have hmem : x ∈ l.insertionSort (fun a b => a.score ≥ b.score) :=
    (List.perm_insertionSort _ l).mem_iff.mpr hx
  rcases hsort : l.insertionSort (fun a b => a.score ≥ b.score) with - | ⟨h, t⟩
  · rw [hsort] at hy; cases hy
  · rw [hsort] at hy hmem hsorted
    have hhy : h = y := Option.some.inj hy
    subst hhy
    rcases List.mem_cons.mp hmem with rfl | hmem2
    · exact le_refl x.score
    · exact (List.sorted_cons.mp hsorted).1 x hmem2

theorem head_mem_of_insertionSortCat (l : List CatEntry) (y : CatEntry)
    (hy : (l.insertionSort (fun a b => a.score ≥ b.score)).head? = some y) :
    y ∈ l :=
  (List.perm_insertionSort _ l).mem_iff.mp (List.mem_of_mem_head? hy)

theorem overallPreScores_pos (catData : List (String × List CatEntry)) :
    ∀ e ∈ overallPreScores catData, 0 < e.score := by
  intro e he
  simp only [overallPreScores] at he
  obtain ⟨pd, _, hsome⟩ := List.mem_filterMap.mp he
  by_cases h0 : (gatherScores catData pd.speciesId).length = 0
  · rw [if_pos h0] at hsome; cases hsome
  · rw [if_neg h0] at hsome
    have he2 := Option.some.inj hsome
    have hscore : e.score =
        ((gatherScores catData pd.speciesId).foldl
          (fun acc s => acc * max s 0.1) 1) ^
          (1 / ((gatherScores catData pd.speciesId).length : ℝ)) := by
      rw [← he2]
    rw [hscore, foldl_mul_maxprod, one_mul]
    apply Real.rpow_pos_of_pos
    apply List.prod_pos
    intro x hx
    obtain ⟨s, _, rfl⟩ := List.mem_map.mp hx
    have : (0.1 : ℝ) ≤ max s 0.1 := le_max_right s 0.1
    linarith

/-- C7: every overall entry's pre-rescale score is the geometric mean of its
available per-scenario scores with each score floored at 0.1; and the final
rescale divides by the highest pre-rescale score (which is always positive, so
the `|| 1` fallback never fires) and rounds - `round(score/highest × 1000)/10`
- rather than flooring. -/
theorem rankOverall_geomean (catData : List (String × List CatEntry)) :
    (overallPreScores catData =
      (baseCategory catData).filterMap (fun pd =>
        if (gatherScores catData pd.speciesId).length = 0 then none
        else some ⟨pd.speciesId,
          geoMeanSpec (gatherScores catData pd.speciesId)⟩)) ∧
    (overallPreScores catData ≠ [] →
      ∃ H : ℝ, (∃ e ∈ overallPreScores catData, e.score = H) ∧
        (∀ e ∈ overallPreScores catData, e.score ≤ H) ∧ (0 : ℝ) < H ∧
        (rankOverall catData).Perm
          ((overallPreScores catData).map (fun e =>
            (⟨e.speciesId,
              ((round (e.score / H * 1000) : ℤ) : ℝ) / 10⟩ : CatEntry)))) := by
  constructor
  · simp only [overallPreScores]
    congr 1
    funext pd
    by_cases h0 : (gatherScores catData pd.speciesId).length = 0
    · rw [if_pos h0, if_pos h0]
    · rw [if_neg h0, if_neg h0]
      congr 2
      simp only [geoMeanSpec]
      rw [foldl_mul_maxprod, one_mul]
  · intro hne
    have hsne : (overallPreScores catData).insertionSort
        (fun a b => a.score ≥ b.score) ≠ [] := by
      intro hcon
      apply hne
      have := (List.perm_insertionSort (fun a b => a.score ≥ b.score)
        (overallPreScores catData)).length_eq
      rw [hcon] at this
      exact List.length_eq_zero.mp this.symm
    obtain ⟨y, hy⟩ : ∃ y, ((overallPreScores catData).insertionSort
        (fun a b => a.score ≥ b.score)).head? = some y := by
      rcases hh : (overallPreScores catData).insertionSort
          (fun a b => a.score ≥ b.score) with - | ⟨a, t⟩
      · exact absurd hh hsne
      · exact ⟨a, by simp [hh]⟩
    have hymem : y ∈ overallPreScores catData :=
      head_mem_of_insertionSortCat _ y hy
    have hyub : ∀ e ∈ overallPreScores catData, e.score ≤ y.score :=
      fun e he => head_insertionSortCat_ge _ e he y hy
    have hypos : (0 : ℝ) < y.score := overallPreScores_pos catData y hymem
    have hyne : y.score ≠ 0 := ne_of_gt hypos
    have hunf : rankOverall catData =
        ((overallPreScores catData).insertionSort
          (fun a b => a.score ≥ b.score)).map (fun e =>
            (⟨e.speciesId,
              ((round (e.score / y.score * 1000) : ℤ) : ℝ) / 10⟩ : CatEntry)) := by
      simp only [rankOverall]
      rw [hy]
      simp [hyne]
    refine ⟨y.score, ⟨y, hymem, rfl⟩, hyub, hypos, ?_⟩
    rw [hunf]
    exact (List.perm_insertionSort (fun a b => a.score ≥ b.score)
      (overallPreScores catData)).map _

/-- C7 witness. -/
theorem rankOverall_geomean_witness :
    (overallPreScores [("leads", [⟨"a", 50⟩])] =
      (baseCategory [("leads", [⟨"a", 50⟩])]).filterMap (fun pd =>
        if (gatherScores [("leads", [⟨"a", 50⟩])] pd.speciesId).length = 0
        then none
        else some ⟨pd.speciesId,
          geoMeanSpec (gatherScores [("leads", [⟨"a", 50⟩])]
            pd.speciesId)⟩)) ∧
    (∃ H : ℝ,
      (∃ e ∈ overallPreScores [("leads", [⟨"a", 50⟩])], e.score = H) ∧
      (∀ e ∈ overallPreScores [("leads", [⟨"a", 50⟩])], e.score ≤ H) ∧
      (0 : ℝ) < H ∧
      (rankOverall [("leads", [⟨"a", 50⟩])]).Perm
        ((overallPreScores [("leads", [⟨"a", 50⟩])]).map (fun e =>
          (⟨e.speciesId,
            ((round (e.score / H * 1000) : ℤ) : ℝ) / 10⟩ : CatEntry)))) :=
  ⟨(rankOverall_geomean [("leads", [⟨"a", 50⟩])]).1,
   (rankOverall_geomean [("leads", [⟨"a", 50⟩])]).2
    (by
      simp [overallPreScores, baseCategory, gatherScores, List.find?,
        List.filterMap])⟩
